import Mathlib

/-!
# PythonLauncher — verification of the configuration and launch pipeline

Shallow embedding of the Python sources of the PythonLauncher repository
(`app_launcher.py`, `config_loader.py`, `env_parser.py`, `menu_builder.py`,
`variable_resolver.py`).  Strings are modelled as Lean `String` / `List Char`
(ASCII reading of the Python character classes), paths as already-resolved
path strings, and filesystem / UI effects as explicit oracle records passed
to the functions that the Python code would perform them in.
-/

namespace PythonLauncher


/-! ### Character classes

ASCII model of Python `str.strip` whitespace and of the `re` classes `\s`,
`\w`, `[A-Za-z_]`, `[A-Za-z0-9_]` used in `app_launcher.parse_env_file` and
`variable_resolver.resolve_parameters`. -/

def isSpaceChar (c : Char) : Bool :=
  c == ' ' || c == '\t' || c == '\n' || c == '\r' || c == '\x0b' || c == '\x0c'

def isWordChar (c : Char) : Bool :=
  c.isAlpha || c.isDigit || c == '_'

def isIdentStartChar (c : Char) : Bool :=
  c.isAlpha || c == '_'

/-- Python `str.strip()`: drop whitespace from both ends. -/
def stripChars (l : List Char) : List Char :=
  ((l.dropWhile isSpaceChar).reverse.dropWhile isSpaceChar).reverse

/-- The double-quote character. -/
def dquote : Char := Char.ofNat 34

/-- The single-quote character. -/
def squote : Char := Char.ofNat 39

/-! ### `app_launcher.parse_env_file` (src/app_launcher.py lines 11-50) -/

/-- The quote-removal step of `parse_env_file`: if the value starts and ends
with a double quote, or starts and ends with a single quote, drop the first
and last character (`value[1:-1]`). -/
def stripQuotes (v : List Char) : List Char :=
  if v.head? == some dquote && v.getLast? == some dquote then (v.drop 1).dropLast
  else if v.head? == some squote && v.getLast? == some squote then (v.drop 1).dropLast
  else v

/-- One line of `parse_env_file`: strip the line; skip it when empty or when
it starts with `#`; otherwise match `^([A-Za-z_][A-Za-z0-9_]*)\s*=\s*(.*)$`
(translated structurally: a maximal identifier run, optional whitespace, `=`,
optional whitespace, the rest as value) and strip surrounding quotes from the
value.  Lines are newline-free by construction (they come from file line
iteration). -/
def parseLine (line : List Char) : Option (List Char × List Char) :=
  match stripChars line with
  | [] => none
  | c :: rest =>
    if c == '#' then none
    else if isIdentStartChar c then
      match (rest.dropWhile isWordChar).dropWhile isSpaceChar with
      | '=' :: valRest =>
          some (c :: rest.takeWhile isWordChar, stripQuotes (valRest.dropWhile isSpaceChar))
      | _ => none
    else none

/-- Python `dict` assignment `m[k] = v`: replace the value at an existing key
in place, otherwise append the binding at the end. -/
def upsert {κ α : Type} [BEq κ] (k : κ) (v : α) : List (κ × α) → List (κ × α)
  | [] => [(k, v)]
  | p :: rest => if p.1 == k then (k, v) :: rest else p :: upsert k v rest

/-- Python `dict` lookup. -/
def lookupKV {κ α : Type} [BEq κ] (m : List (κ × α)) (k : κ) : Option α :=
  (m.find? (fun p => p.1 == k)).map (·.2)

/-- The whole of `parse_env_file`, over the file's list of lines: fold each
parsed line into the dictionary; malformed lines contribute nothing. -/
def parseEnvLines (lines : List (List Char)) : List (List Char × List Char) :=
  lines.foldl
    (fun m line =>
      match parseLine line with
      | none => m
      | some (k, v) => upsert k v m)
    []

/-! ### The percent-escape step of `launch_app` (src/app_launcher.py line 101) -/

/-- `value.replace("%", "%%")`: double every percent character. -/
def escapeBatchValue : List Char → List Char
  | [] => []
  | c :: rest =>
      if c == '%' then '%' :: '%' :: escapeBatchValue rest
      else c :: escapeBatchValue rest

/-- Modelled from the spec: one level of host-shell interpretation of a
batch `set` line's value — each doubled percent is read back as one literal
percent (the shell interpreter itself is not part of src/; the spec states
that escaped values "survive one level of shell interpretation"). -/
def readBatchValue : List Char → List Char
  | [] => []
  | [c] => [c]
  | c :: d :: rest =>
      if c == '%' && d == '%' then '%' :: readBatchValue rest
      else c :: readBatchValue (d :: rest)

/-! ### Lemmas about characters, strip, and the key/value parser -/

/-- A valid key of `parse_env_file`: `[A-Za-z_][A-Za-z0-9_]*`. -/
def isIdentChars : List Char → Bool
  | [] => false
  | c :: rest => isIdentStartChar c && rest.all isWordChar

/-! ### Environment-file discovery: `AppConfig.get_all_env_files`
(src/config_loader.py lines 34-59)

Files are modelled by their resolved absolute path string (`Path.resolve()`
canonicalizes case on the deployment platform, so set identity is string
identity); the file-name component is a function of the path.  `sorted` on
resolved `Path` objects compares full case-folded path strings, which
`pathLe` models.  A Python `set` has no intrinsic order; the model collects
explicit files first and scan results second, which is irrelevant after
sorting. -/

/-- The file-name component of a resolved path: everything after the last
separator. -/
def fileNameOf (p : String) : String :=
  ⟨(p.toList.reverse.takeWhile (fun c => !(c == '/'))).reverse⟩

/-- `pat` is a leading part of `l` (character-wise). -/
def beginsWith : List Char → List Char → Bool
  | [], _ => true
  | _ :: _, [] => false
  | a :: as, b :: bs => a == b && beginsWith as bs

/-- Python `pat in s` substring test. -/
def containsSub (pat : List Char) : List Char → Bool
  | [] => beginsWith pat []
  | c :: rest => beginsWith pat (c :: rest) || containsSub pat rest

/-- Python `s.endswith(pat)`. -/
def endsWithSub (pat l : List Char) : Bool :=
  beginsWith pat.reverse l.reverse

/-- The three-way matching rule of `get_all_env_files`:
`filename == ".env" or filename.endswith(".env") or ".env." in filename`. -/
def isEnvFileName (n : String) : Bool :=
  n == ".env" || endsWithSub ".env".toList n.toList
    || containsSub ".env.".toList n.toList

/-- Lexicographic comparison of character lists (code-point order, as Python
compares strings). -/
def leChars : List Char → List Char → Bool
  | [], _ => true
  | _ :: _, [] => false
  | a :: as, b :: bs => if a = b then leChars as bs else decide (a < b)

def leChars_total (x y : List Char) : leChars x y = true ∨ leChars y x = true := by
  induction x generalizing y with
  | nil => exact Or.inl rfl
  | cons a as ih =>
      cases y with
      | nil => exact Or.inr rfl
      | cons b bs =>
          by_cases hab : a = b
          · subst hab
            rcases ih bs with h | h
            · exact Or.inl (by simp [leChars, h])
            · exact Or.inr (by simp [leChars, h])
          · rcases lt_or_gt_of_ne hab with h | h
            · exact Or.inl (by simp [leChars, hab, h])
            · exact Or.inr (by simp [leChars, Ne.symm hab, h])

def leChars_trans (x y z : List Char) (h1 : leChars x y = true)
    (h2 : leChars y z = true) : leChars x z = true := by
  induction x generalizing y z with
  | nil => rfl
  | cons a as ih =>
      cases y with
      | nil => simp [leChars] at h1
      | cons b bs =>
          cases z with
          | nil => simp [leChars] at h2
          | cons c cs =>
              by_cases hab : a = b <;> by_cases hbc : b = c
              · subst hab
                subst hbc
                simp only [leChars, if_pos rfl] at h1 h2 ⊢
                exact ih bs cs h1 h2
              · subst hab
                simp only [leChars, if_pos rfl] at h1
                simp only [leChars, if_neg hbc, decide_eq_true_eq] at h2
                simp [leChars, hbc, h2]
              · subst hbc
                simp only [leChars, if_neg hab, decide_eq_true_eq] at h1
                simp [leChars, hab, h1]
              · simp only [leChars, if_neg hab, decide_eq_true_eq] at h1
                simp only [leChars, if_neg hbc, decide_eq_true_eq] at h2
                have hac : a < c := lt_trans h1 h2
                simp [leChars, ne_of_lt hac, hac]

/-- Comparison used by `sorted(...)` on resolved `Path` objects: compare the
case-folded full path strings. -/
def pathLe (a b : String) : Prop :=
  leChars (a.toList.map Char.toLower) (b.toList.map Char.toLower) = true

/-- The ordering the claim asserts instead: case-insensitive by file name. -/
def nameLe (a b : String) : Prop :=
  leChars ((fileNameOf a).toList.map Char.toLower)
    ((fileNameOf b).toList.map Char.toLower) = true

instance : DecidableRel pathLe := fun _ _ =>
  inferInstanceAs (Decidable (_ = true))

instance : DecidableRel nameLe := fun _ _ =>
  inferInstanceAs (Decidable (_ = true))

instance : IsTotal String pathLe := ⟨fun _ _ => leChars_total _ _⟩

instance : IsTrans String pathLe := ⟨fun _ _ _ => leChars_trans _ _ _⟩

/-- Building a Python `set` from a list, as a duplicate-free list. -/
def dedupKeepFirst (l : List String) : List String :=
  l.foldl (fun acc p => if acc.contains p then acc else acc ++ [p]) []

/-- `AppConfig.get_all_env_files`: explicit files that exist plus recursively
scanned files whose name matches the `.env` rule, de-duplicated as a set of
resolved paths, returned as `sorted(list(env_files))`. -/
def getAllEnvFiles (fexists : String → Bool)
    (explicitFiles scanFiles : List String) : List String :=
  List.insertionSort pathLe
    (dedupKeepFirst (explicitFiles.filter fexists
      ++ scanFiles.filter (fun p => isEnvFileName (fileNameOf p))))

/-! ### Configuration records (src/config_loader.py)

JSON records are modelled structurally: an `Option` field is `none` when the
key is absent from the JSON object (`data.get(...)` / `if ... in data`). -/

/-- A variable descriptor from the `variables` map of a config. -/
structure VarConfig where
  type? : Option String := none
  default? : Option String := none
  prompt? : Option String := none
  format? : Option String := none
deriving DecidableEq

/-- One entry of `parameter_sets`. -/
structure ParamSet where
  name? : Option String := none
  params? : Option String := none
deriving DecidableEq

/-- `config_loader.AppConfig` after `__init__` (fields not used by any
modelled operation, such as `icon` and `description`, are omitted). -/
structure AppConfig where
  configName : String
  name : String
  script : Option String := none
  venv : Option String := none
  working_directory : Option String := none
  env_files : List String := []
  env_directory : Option String := none
  -- source field name `variables`; Lean 4 reserves that word as a command
  variables_config : List (String × VarConfig) := []
  parameter_sets : List ParamSet := []
deriving DecidableEq

/-- The sort key of `_sort_configs`' alphabetical tier:
`key=lambda c: c.name.lower()`. -/
def displayLe (a b : AppConfig) : Prop :=
  leChars (a.name.toList.map Char.toLower) (b.name.toList.map Char.toLower) = true

instance : DecidableRel displayLe := fun _ _ =>
  inferInstanceAs (Decidable (_ = true))

instance : IsTotal AppConfig displayLe := ⟨fun _ _ => leChars_total _ _⟩

instance : IsTrans AppConfig displayLe := ⟨fun _ _ _ => leChars_trans _ _ _⟩

/-- One iteration of the custom-order loop of `_sort_configs`: if the name is
a key of the remaining dictionary, move its config to the picked list and
delete it.  (The dictionary has unique keys by construction, cf.
`load_all_configs`; `find?`/`filter` implement lookup and deletion.) -/
def sortStep (st : List AppConfig × List (String × AppConfig)) (n : String) :
    List AppConfig × List (String × AppConfig) :=
  match st.2.find? (fun p => p.1 == n) with
  | some p => (st.1 ++ [p.2], st.2.filter (fun q => !(q.1 == n)))
  | none => st

/-- `ConfigLoader._sort_configs` (src/config_loader.py lines 115-141): configs
named by the `order` list of `master.json` first, in that order; the rest
appended sorted case-insensitively by display name (Python's `sorted` is
stable; so is `insertionSort`). -/
def sortConfigs (order : List String) (configs : List (String × AppConfig)) :
    List AppConfig :=
  let st := order.foldl sortStep ([], configs)
  st.1 ++ List.insertionSort displayLe (st.2.map (·.2))

/-- The claim's description of the ordering, written from the spec: the order
list filtered to identities present in the loaded set, in order; unknown
identities ignored; then all unlisted configs sorted case-insensitively by
display name. -/
def sortConfigsSpec (order : List String) (configs : List (String × AppConfig)) :
    List AppConfig :=
  (order.filter (fun n => configs.any (fun p => p.1 == n))).filterMap
      (fun n => (configs.find? (fun p => p.1 == n)).map (·.2))
    ++ List.insertionSort displayLe
      ((configs.filter (fun p => !(order.contains p.1))).map (·.2))

/-- A minimal config record for concrete test inputs. -/
def demoConfig (cname dname : String) : AppConfig :=
  { configName := cname, name := dname, script := some "app.py" }

/-! ### `ConfigLoader.load_all_configs` (src/config_loader.py lines 85-113) -/

/-- The JSON payload of one configuration file, as far as `AppConfig.__init__`
reads it (`none` = key absent). -/
structure ConfigData where
  name? : Option String := none
  script? : Option String := none
  venv? : Option String := none
  working_directory? : Option String := none
  env_files : List String := []
  env_directory? : Option String := none
  variables_config : List (String × VarConfig) := []
  parameter_sets : List ParamSet := []
deriving DecidableEq

/-- One file of the config directory: its file name and its parse result
(`none` models `json.load` raising, caught by `load_all_configs`). -/
structure SrcFile where
  fname : String
  data : Option ConfigData
deriving DecidableEq

/-- Python `PurePath.stem`: the file name without its last suffix; a name
whose only dot is leading (or trailing) has no suffix. -/
def stemOf (s : String) : String :=
  let cs := s.toList
  let afterDot := cs.reverse.takeWhile (fun c => !(c == '.'))
  if afterDot.length = cs.length then s
  else
    let i := cs.length - afterDot.length - 1
    if 0 < i ∧ i < cs.length - 1 then ⟨cs.take i⟩ else s

/-- `AppConfig.__init__` from a file name and its JSON payload. -/
def mkAppConfig (fname : String) (d : ConfigData) : AppConfig :=
  { configName := stemOf fname
    name := d.name?.getD (stemOf fname)
    script := d.script?
    venv := d.venv?
    working_directory := d.working_directory?
    env_files := d.env_files
    env_directory := d.env_directory?
    variables_config := d.variables_config
    parameter_sets := d.parameter_sets }

/-- `AppConfig.validate` (src/config_loader.py lines 61-75): `script` must be
declared and exist; a declared venv root must contain
`Scripts/python.exe`.  (Path joining is modelled by string concatenation on
resolved paths.) -/
def validateConfig (fexists : String → Bool) (c : AppConfig) : Bool :=
  match c.script with
  | none => false
  | some sp =>
      if !(fexists sp) then false
      else
        match c.venv with
        | some vp => fexists (vp ++ "/Scripts/python.exe")
        | none => true

/-- `ConfigLoader.load_all_configs`: iterate the directory's `*.json` files,
skip `master.json`, skip files whose JSON fails to parse, skip records that
fail validation (each skip surfaces only a warning), store the valid ones in
a dictionary keyed by `config_name`, and hand the dictionary to
`_sort_configs` together with `master.json`'s order list. -/
def loadAllConfigs (fexists : String → Bool) (order : List String)
    (files : List SrcFile) : List AppConfig :=
  let configs := files.foldl
    (fun m f =>
      if f.fname == "master.json" then m
      else
        match f.data with
        | none => m
        | some d =>
            let c := mkAppConfig f.fname d
            if validateConfig fexists c then upsert c.configName c m else m)
    []
  sortConfigs order configs

/-- The records of a directory that parse and validate. -/
def validRecords (fexists : String → Bool) (files : List SrcFile) :
    List AppConfig :=
  (files.filter (fun f => !(f.fname == "master.json"))).filterMap
    (fun f =>
      match f.data with
      | none => none
      | some d =>
          let c := mkAppConfig f.fname d
          if validateConfig fexists c then some c else none)

/-! ### `MenuBuilder.build_param_menu_items` (src/menu_builder.py lines 128-145) -/

def build_param_menu_items (cfg : AppConfig) : List (String × ParamSet) :=
  let items := cfg.parameter_sets.map (fun ps => (ps.name?.getD "Unnamed", ps))
  if items.isEmpty then [("Run", { name? := some "Run", params? := some "" })]
  else items

/-! ### `VariableResolver` (src/variable_resolver.py)

The resolver's external world (tkinter dialogs, clock, clipboard) is an
oracle record.  `askString` returns `none` when the text dialog is cancelled
(`simpledialog.askstring`); the pickers return `""` on a cancelled selection
(tkinter's empty result); `formatValid f = false` models
`datetime.now().strftime f` raising (caught by the code, which falls back to
the default pattern, assumed valid); `clipboardPaste = none` models
`pyperclip.paste` raising.  Each call of one of the three `_prompt_*`
dialogs counts as one interactive prompt. -/

structure World where
  askString : String → String → Option String
  askOpenFile : String → String
  askDirectory : String → String
  formatValid : String → Bool
  strftimeAt : String → String
  epochSeconds : Nat
  clipboardPaste : Option String

/-- `VariableResolver._prompt_input` (lines 140-157): show the text dialog;
on cancel (`result is None`) fall back to the default when it is non-empty,
otherwise signal cancellation. -/
def prompt_input (w : World) (cfg : VarConfig) (dflt : String) : Option String :=
  match w.askString (cfg.prompt?.getD "Enter value") dflt with
  | some r => some r
  | none => if dflt == "" then none else some dflt

/-- `VariableResolver._prompt_file_picker` (lines 103-120): an empty (cancelled)
selection falls back to the default when non-empty, otherwise cancellation. -/
def prompt_file_picker (w : World) (cfg : VarConfig) (dflt : String) : Option String :=
  match w.askOpenFile (cfg.prompt?.getD "Select a file") with
  | r => if r == "" then (if dflt == "" then none else some dflt) else some r

/-- `VariableResolver._prompt_folder_picker` (lines 122-138). -/
def prompt_folder_picker (w : World) (cfg : VarConfig) (dflt : String) : Option String :=
  match w.askDirectory (cfg.prompt?.getD "Select a folder") with
  | r => if r == "" then (if dflt == "" then none else some dflt) else some r

/-- The type-dispatch of `VariableResolver._resolve_variable` (lines 67-101)
once the descriptor is known, together with the number of interactive
prompts it performs. -/
def resolve_known (w : World) (cfg : VarConfig) : Option String × Nat :=
  if cfg.type?.getD "input" == "filepicker" then
    (prompt_file_picker w cfg (cfg.default?.getD ""), 1)
  else if cfg.type?.getD "input" == "folderpicker" then
    (prompt_folder_picker w cfg (cfg.default?.getD ""), 1)
  else if cfg.type?.getD "input" == "input" then
    (prompt_input w cfg (cfg.default?.getD ""), 1)
  else if cfg.type?.getD "input" == "datetime" then
    if w.formatValid (cfg.format?.getD "%Y-%m-%d_%H-%M-%S") then
      (some (w.strftimeAt (cfg.format?.getD "%Y-%m-%d_%H-%M-%S")), 0)
    else (some (w.strftimeAt "%Y-%m-%d_%H-%M-%S"), 0)
  else if cfg.type?.getD "input" == "timestamp" then
    (some (toString w.epochSeconds), 0)
  else if cfg.type?.getD "input" == "clipboard" then
    match w.clipboardPaste with
    | some s => (some s, 0)
    | none => (some "", 0)
  else (some (cfg.default?.getD ""), 0)

/-- `VariableResolver._resolve_variable` (lines 56-101): an unknown token is
left literal (with a warning); otherwise dispatch on the declared type. -/
def resolve_variable (w : World) (vars : List (String × VarConfig))
    (vname : String) : Option String × Nat :=
  match lookupKV vars vname with
  | none => (some ("$" ++ vname), 0)
  | some cfg => resolve_known w cfg

/-- Token scan of `re.findall(r'\$(\w+)', params)`: at each `$` take the
maximal run of word characters; an empty run is no match and scanning
resumes at the next character.  The accumulator holds the (reversed)
word-run after a pending `$`. -/
def findTokensAux : Option (List Char) → List Char → List String
  | none, [] => []
  | some t, [] => if t.isEmpty then [] else [(⟨t.reverse⟩ : String)]
  | none, c :: rest =>
      if c == '$' then findTokensAux (some []) rest
      else findTokensAux none rest
  | some t, c :: rest =>
      if isWordChar c then findTokensAux (some (c :: t)) rest
      else
        (if t.isEmpty then [] else [(⟨t.reverse⟩ : String)])
          ++ (if c == '$' then findTokensAux (some []) rest
              else findTokensAux none rest)

def findTokens (params : List Char) : List String :=
  findTokensAux none params

/-- One replacement of `re.sub`'s `replace_var` (lines 50-52): the cached
value, or the literal `$name` when the token is absent from the cache. -/
def flushTok (cache : List (String × String)) : Option (List Char) → List Char
  | none => []
  | some t =>
      if t.isEmpty then ['$']
      else
        match lookupKV cache (⟨t.reverse⟩ : String) with
        | some v => v.toList
        | none => '$' :: t.reverse

/-- `re.sub(r'\$(\w+)', replace_var, params)` (line 54). -/
def substTokensAux (cache : List (String × String)) :
    Option (List Char) → List Char → List Char
  | cur, [] => flushTok cache cur
  | none, c :: rest =>
      if c == '$' then substTokensAux cache (some []) rest
      else c :: substTokensAux cache none rest
  | some t, c :: rest =>
      if isWordChar c then substTokensAux cache (some (c :: t)) rest
      else
        flushTok cache (some t)
          ++ (if c == '$' then substTokensAux cache (some []) rest
              else c :: substTokensAux cache none rest)

/-- The resolution loop of `resolve_parameters` (lines 41-47) over the
de-duplicated token list, threading the session cache and the number of
interactive prompts; a `none` from `_resolve_variable` aborts the whole
batch (first component `false`). -/
def resolveLoop (w : World) (vars : List (String × VarConfig)) :
    List String → List (String × String) → Nat
      → Bool × List (String × String) × Nat
  | [], cache, n => (true, cache, n)
  | vname :: rest, cache, n =>
      match lookupKV cache vname with
      | some _ => resolveLoop w vars rest cache n
      | none =>
          match resolve_variable w vars vname with
          | (none, k) => (false, cache, n + k)
          | (some v, k) => resolveLoop w vars rest (upsert vname v cache) (n + k)

structure ResolveOut where
  result : Option String
  cache : List (String × String)
  prompts : Nat
deriving DecidableEq

/-- `VariableResolver.resolve_parameters` (lines 26-54): collect all distinct
`$IDENTIFIER` tokens up front (a Python `set` has no defined order; the
model fixes first-occurrence order, on which no settled property depends),
resolve each token not already cached, and substitute.  Returns `none` when
the user cancelled. -/
def resolve_parameters (w : World) (vars : List (String × VarConfig))
    (cache0 : List (String × String)) (params : String) : ResolveOut :=
  match resolveLoop w vars (dedupKeepFirst (findTokens params.toList)) cache0 0 with
  | (true, cache, n) =>
      { result := some ⟨substTokensAux cache none params.toList⟩
        cache := cache
        prompts := n }
  | (false, cache, n) => { result := none, cache := cache, prompts := n }

/-! ### `app_launcher.launch_app` (src/app_launcher.py lines 53-164) -/

/-- The launcher's world: file existence and `subprocess.Popen`
(`spawn = none` models an OS-level spawn failure, raised and caught by the
surrounding `try`). -/
structure LaunchWorld where
  fileExists : String → Bool
  spawn : Option Nat

structure LaunchOutcome where
  success : Bool
  spawned : Bool
deriving DecidableEq

/-- The venv gate (lines 106-110): a declared venv whose
`Scripts/activate.bat` does not exist blocks the launch; no venv, no gate. -/
def venvMissing (lw : LaunchWorld) : Option String → Bool
  | some vp => !(lw.fileExists (vp ++ "/Scripts/activate.bat"))
  | none => false

/-- Control flow of `launch_app`: the venv activation gate (lines 105-114)
runs before any process is created; a spawn failure is caught and reported
(lines 160-164), returning failure.  The batch-file text itself (cwd line,
`set` lines through `parse_env_file` and the percent escape, python command)
only feeds the spawned shell and cannot change the returned outcome, so it
is not replayed here. -/
def launch_app (lw : LaunchWorld) (script params : String) (venv : Option String)
    (envFiles : List String) (wd : Option String) : LaunchOutcome :=
  if venvMissing lw venv then { success := false, spawned := false }
  else
    match lw.spawn with
    | some _ => { success := true, spawned := true }
    | none => { success := false, spawned := false }

/-! ### `MenuBuilder.launch_app_with_config` (src/menu_builder.py lines 23-68) -/

structure OrchOut where
  resolved : Option String
  outcome : Option LaunchOutcome
  prompts : Nat
deriving DecidableEq

/-- `params` before resolution: the chosen set's `params` string, or `""`. -/
def paramsOf (paramSet : Option ParamSet) : String :=
  match paramSet with
  | some ps => ps.params?.getD ""
  | none => ""

def envFilesOf (envFile : Option String) : List String :=
  match envFile with
  | some e => [e]
  | none => []

/-- The tail of `launch_app_with_config` after resolution: a cancelled
resolution returns without calling `launch_app` (`outcome = none`). -/
def orchFromResolve (lw : LaunchWorld) (cfg : AppConfig)
    (envFile : Option String) (r : ResolveOut) : OrchOut :=
  match r.result with
  | none => { resolved := none, outcome := none, prompts := r.prompts }
  | some pres =>
      { resolved := some pres
        outcome := some (launch_app lw (cfg.script.getD "") pres cfg.venv
          (envFilesOf envFile) cfg.working_directory)
        prompts := r.prompts }

/-- `MenuBuilder.launch_app_with_config`: when a parameter set was chosen and
its params contain a `$`, a **fresh** `VariableResolver` is constructed
(line 44) — its cache starts empty — and a `none` result aborts the launch;
otherwise `launch_app` runs directly.  (`script` is non-`none` for every
loaded config by validation; `getD ""` is the total-model reading.) -/
def launch_app_with_config (w : World) (lw : LaunchWorld) (cfg : AppConfig)
    (envFile : Option String) (paramSet : Option ParamSet) : OrchOut :=
  if paramSet.isSome && (paramsOf paramSet).toList.contains '$' then
    orchFromResolve lw cfg envFile
      (resolve_parameters w cfg.variables_config [] (paramsOf paramSet))
  else
    { resolved := some (paramsOf paramSet)
      outcome := some (launch_app lw (cfg.script.getD "") (paramsOf paramSet)
        cfg.venv (envFilesOf envFile) cfg.working_directory)
      prompts := 0 }

/-- One menu-interaction session: `MenuBuilder` keeps no resolver state
between launches (each menu command calls `launch_app_with_config`, which
builds its own resolver), so a session is the list of independent calls. -/
def runSession (w : World) (lw : LaunchWorld) (cfg : AppConfig)
    (reqs : List (Option String × Option ParamSet)) : List OrchOut :=
  reqs.map (fun r => launch_app_with_config w lw cfg r.1 r.2)

/-! ### Concrete test fixtures -/

/-- The spec's end-to-end scenario: `variables: {mode: {type: input,
default: dev}}`. -/
def modeVar : VarConfig := { type? := some "input", default? := some "dev" }

def debugPS : ParamSet := { name? := some "Debug", params? := some "--mode=$mode" }

def demoAppCfg : AppConfig :=
  { configName := "demo", name := "demo", script := some "app.py"
    variables_config := [("mode", modeVar)], parameter_sets := [debugPS] }

/-- A world whose text prompt is always cancelled. -/
def wCancel : World :=
  { askString := fun _ _ => none, askOpenFile := fun _ => ""
    askDirectory := fun _ => "", formatValid := fun _ => true
    strftimeAt := fun _ => "2024-01-01_00-00-00", epochSeconds := 0
    clipboardPaste := none }

/-- A world whose text prompt always answers `v1`. -/
def wAnswer : World :=
  { askString := fun _ _ => some "v1", askOpenFile := fun _ => ""
    askDirectory := fun _ => "", formatValid := fun _ => true
    strftimeAt := fun _ => "2024-01-01_00-00-00", epochSeconds := 0
    clipboardPaste := none }

def lwOk : LaunchWorld := { fileExists := fun _ => true, spawn := some 7 }

/-! ### C1: prompt cancellation of an `input` variable -/

/-- The spec's scenario config but with an **empty** default. -/
def modeVarE : VarConfig := { type? := some "input" }

def demoAppCfgE : AppConfig :=
  { configName := "demo2", name := "demo2", script := some "app.py"
    variables_config := [("mode", modeVarE)], parameter_sets := [debugPS] }

/-! ## Theorems -/

theorem readBatchValue_cons_ne (c : Char) (l : List Char) (h : ¬ c = '%') :
    readBatchValue (c :: l) = c :: readBatchValue l := by
  cases l with
  | nil => rfl
  | cons d rest =>
      have hb : (c == '%') = false := by simpa using h
      simp [readBatchValue, hb]

theorem readBatchValue_escape (v : List Char) :
    readBatchValue (escapeBatchValue v) = v := by
  induction v with
  | nil => rfl
  | cons c rest ih =>
      by_cases hc : c = '%'
      · subst hc
        have he : escapeBatchValue ('%' :: rest) = '%' :: '%' :: escapeBatchValue rest := by
          simp [escapeBatchValue]
        rw [he]
        simpa [readBatchValue] using ih
      · have hb : (c == '%') = false := by simpa using hc
        have he : escapeBatchValue (c :: rest) = c :: escapeBatchValue rest := by
          simp [escapeBatchValue, hb]
        rw [he, readBatchValue_cons_ne c _ hc, ih]

/-- Claim C5: Round-trip of the escape step: for every environment value that
contains a literal percent character, applying the batch-file escaping of
`launch_app` (every percent doubled, src/app_launcher.py line 101) and then
one level of shell interpretation (each doubled percent read back as one
percent) yields the original literal value. -/
theorem percent_escape_roundtrip (v : List Char) (hv : '%' ∈ v) :
    readBatchValue (escapeBatchValue v) = v :=
  readBatchValue_escape v

theorem percent_escape_roundtrip_witness :
    '%' ∈ "100%x".toList ∧
      readBatchValue (escapeBatchValue "100%x".toList) = "100%x".toList :=
  ⟨by decide, percent_escape_roundtrip "100%x".toList (by decide)⟩

theorem space_char_cases (c : Char) (h : isSpaceChar c = true) :
    c = ' ' ∨ c = '\t' ∨ c = '\n' ∨ c = '\r' ∨ c = '\x0b' ∨ c = '\x0c' := by
  unfold isSpaceChar at h
  simp only [Bool.or_eq_true, beq_iff_eq] at h
  tauto

theorem identStart_not_space (c : Char) (h : isIdentStartChar c = true) :
    isSpaceChar c = false := by
  cases hb : isSpaceChar c
  · rfl
  · exfalso
    rcases space_char_cases c hb with h1 | h1 | h1 | h1 | h1 | h1 <;>
      subst h1 <;> revert h <;> decide

theorem identStart_not_hash (c : Char) (h : isIdentStartChar c = true) :
    (c == '#') = false := by
  cases hb : (c == '#')
  · rfl
  · exfalso
    have : c = '#' := by simpa using hb
    subst this
    revert h
    decide

theorem identStart_word (c : Char) (h : isIdentStartChar c = true) :
    isWordChar c = true := by
  unfold isIdentStartChar at h
  unfold isWordChar
  rcases (Bool.or_eq_true _ _).mp h with h1 | h1 <;> simp [h1]

theorem takeWhile_append_of_all {α : Type} (p : α → Bool) (l1 l2 : List α)
    (h : l1.all p = true) : (l1 ++ l2).takeWhile p = l1 ++ l2.takeWhile p := by
  induction l1 with
  | nil => simp
  | cons a t ih =>
      rw [List.all_cons, Bool.and_eq_true] at h
      simp [List.takeWhile_cons, h.1, ih h.2]

theorem dropWhile_append_of_all {α : Type} (p : α → Bool) (l1 l2 : List α)
    (h : l1.all p = true) : (l1 ++ l2).dropWhile p = l2.dropWhile p := by
  induction l1 with
  | nil => simp
  | cons a t ih =>
      rw [List.all_cons, Bool.and_eq_true] at h
      simp [List.dropWhile_cons, h.1, ih h.2]

theorem dropWhile_eq_self_of_strip (w : List Char) (h : stripChars w = w) :
    w.dropWhile isSpaceChar = w := by
  have hsuf : (w.dropWhile isSpaceChar) <:+ w := List.dropWhile_suffix _
  apply hsuf.sublist.eq_of_length
  have h1 : (stripChars w).length ≤ (w.dropWhile isSpaceChar).length := by
    unfold stripChars
    calc (((w.dropWhile isSpaceChar).reverse.dropWhile isSpaceChar).reverse).length
        = ((w.dropWhile isSpaceChar).reverse.dropWhile isSpaceChar).length := by simp
      _ ≤ ((w.dropWhile isSpaceChar).reverse).length :=
          (List.dropWhile_suffix _).sublist.length_le
      _ = (w.dropWhile isSpaceChar).length := by simp
  have h2 : (w.dropWhile isSpaceChar).length ≤ w.length :=
    (List.dropWhile_suffix _).sublist.length_le
  rw [h] at h1
  exact le_antisymm h2 h1

theorem rev_dropWhile_eq_self_of_strip (w : List Char) (h : stripChars w = w) :
    w.reverse.dropWhile isSpaceChar = w.reverse := by
  have hd := dropWhile_eq_self_of_strip w h
  unfold stripChars at h
  rw [hd] at h
  have := congrArg List.reverse h
  simpa using this

theorem lookupKV_cons {κ α : Type} [BEq κ] (q : κ × α) (t : List (κ × α)) (k : κ) :
    lookupKV (q :: t) k = if q.1 == k then some q.2 else lookupKV t k := by
  by_cases hq : (q.1 == k) = true
  · simp [lookupKV, List.find?_cons_of_pos, hq]
  · simp only [Bool.not_eq_true] at hq
    simp [lookupKV, List.find?_cons_of_neg, hq]

theorem lookupKV_upsert {κ α : Type} [BEq κ] [LawfulBEq κ] (k' : κ) (v : α)
    (m : List (κ × α)) (k : κ) :
    lookupKV (upsert k' v m) k = if k' == k then some v else lookupKV m k := by
  induction m with
  | nil =>
      by_cases h : (k' == k) = true <;>
        simp [upsert, lookupKV_cons, lookupKV, h]
  | cons p rest ih =>
      by_cases hp : (p.1 == k') = true
      · have hpeq : p.1 = k' := by simpa using hp
        simp only [upsert, hp, if_true]
        by_cases hk : (k' == k) = true
        · simp [lookupKV_cons, hk]
        · have hpk : (p.1 == k) = false := by
            simp only [Bool.not_eq_true] at hk
            simpa [hpeq] using hk
          simp [lookupKV_cons, hk, hpk]
      · simp only [upsert, hp, if_false, Bool.false_eq_true]
        by_cases hpk : (p.1 == k) = true
        · have hkk : (k' == k) = false := by
            cases hkk : (k' == k)
            · rfl
            · exfalso
              have h1 : p.1 = k := by simpa using hpk
              have h2 : k' = k := by simpa using hkk
              rw [h1.trans h2.symm] at hp
              simp at hp
          simp [lookupKV_cons, hpk, hkk]
        · simp only [Bool.not_eq_true] at hpk
          simp [lookupKV_cons, hpk, ih]

theorem parseFold_lookup (lines : List (List Char))
    (m : List (List Char × List Char)) (k : List Char) :
    lookupKV (lines.foldl
      (fun acc line =>
        match parseLine line with
        | none => acc
        | some (key, v) => upsert key v acc) m) k =
      match ((lines.filterMap parseLine).filter (fun p => p.1 == k)).getLast? with
      | some p => some p.2
      | none => lookupKV m k := by
  induction lines generalizing m with
  | nil => simp
  | cons line rest ih =>
      cases hpl : parseLine line with
      | none => simp [hpl, ih]
      | some kv =>
          obtain ⟨key, v⟩ := kv
          simp only [List.foldl_cons, hpl, List.filterMap_cons, ih]
          by_cases hk : (key == k) = true
          · cases hF : ((rest.filterMap parseLine).filter (fun p => p.1 == k)).getLast? with
            | none =>
                simp [List.filter_cons, hk, hF, List.getLast?_cons, lookupKV_upsert]
            | some p =>
                simp [List.filter_cons, hk, hF, List.getLast?_cons, lookupKV_upsert]
          · have hk' : (key == k) = false := by simpa using hk
            cases hF : ((rest.filterMap parseLine).filter (fun p => p.1 == k)).getLast? with
            | none => simp [List.filter_cons, hk', hF, lookupKV_upsert]
            | some p => simp [List.filter_cons, hk', hF, lookupKV_upsert]

theorem parseLine_wellFormed (k w : List Char) (hk : isIdentChars k = true)
    (hw : stripChars w = w) :
    parseLine (k ++ '=' :: w) = some (k, stripQuotes w) := by
  obtain ⟨c, krest, rfl⟩ : ∃ c krest, k = c :: krest := by
    cases k with
    | nil => simp [isIdentChars] at hk
    | cons c krest => exact ⟨c, krest, rfl⟩
  have hk' : isIdentStartChar c = true ∧ krest.all isWordChar = true := by
    simpa [isIdentChars, Bool.and_eq_true] using hk
  obtain ⟨hc, hall⟩ := hk'
  have hse : isSpaceChar '=' = false := by decide
  have hstrip : stripChars ((c :: krest) ++ '=' :: w) = (c :: krest) ++ '=' :: w := by
    have h1 : ((c :: krest) ++ '=' :: w).dropWhile isSpaceChar
        = (c :: krest) ++ '=' :: w := by
      rw [List.cons_append, List.dropWhile_cons]
      simp [identStart_not_space c hc]
    have h2 : (((c :: krest) ++ '=' :: w).reverse).dropWhile isSpaceChar
        = ((c :: krest) ++ '=' :: w).reverse := by
      have hrw : ((c :: krest) ++ '=' :: w).reverse
          = w.reverse ++ '=' :: (c :: krest).reverse := by
        simp
      rw [hrw, List.dropWhile_append]
      by_cases hwnil : w = []
      · subst hwnil
        simp [List.dropWhile_cons, hse]
      · have hrev : w.reverse.dropWhile isSpaceChar = w.reverse :=
          rev_dropWhile_eq_self_of_strip w hw
        have hne : (w.reverse.dropWhile isSpaceChar).isEmpty = false := by
          rw [hrev]
          simpa [List.isEmpty_iff] using hwnil
        rw [if_neg (by simp [hne]), hrev]
    unfold stripChars
    rw [h1, h2, List.reverse_reverse]
  have hdw : ((krest ++ '=' :: w).dropWhile isWordChar).dropWhile isSpaceChar
      = '=' :: w := by
    rw [dropWhile_append_of_all _ _ _ hall]
    have hwrd : isWordChar '=' = false := by decide
    rw [List.dropWhile_cons]
    simp only [hwrd, Bool.false_eq_true, if_false]
    rw [List.dropWhile_cons]
    simp [hse]
  have htw : (krest ++ '=' :: w).takeWhile isWordChar = krest := by
    rw [takeWhile_append_of_all _ _ _ hall]
    have hwrd : isWordChar '=' = false := by decide
    rw [List.takeWhile_cons]
    simp [hwrd]
  unfold parseLine
  rw [hstrip, List.cons_append]
  simp only [identStart_not_hash c hc, hc, Bool.false_eq_true, if_false, if_true,
    reduceCtorEq, reduceIte]
  simp only [hdw, htw, dropWhile_eq_self_of_strip w hw]

/-- Claim C6: The key/value environment-file parser `parse_env_file`
(src/app_launcher.py lines 11-50): blank lines and lines whose first
non-space character is `#` are skipped; a line contributes a binding only if
it matches `IDENTIFIER = VALUE` with the identifier made of letters, digits
and underscore not starting with a digit; surrounding matching single or
double quotes around the value are stripped; a malformed line is skipped
without any effect on the result; and when the same key appears on several
lines, the later line's value overrides the earlier one in the result.
(The newline-freedom hypothesis on the value records that lines produced by
file iteration never contain an embedded newline.) -/
theorem parse_env_file_spec :
    (∀ line : List Char, stripChars line = [] → parseLine line = none) ∧
    (∀ line : List Char, (line.dropWhile isSpaceChar).head? = some '#' →
        parseLine line = none) ∧
    (∀ line k v, parseLine line = some (k, v) → isIdentChars k = true) ∧
    (∀ k w : List Char, isIdentChars k = true → stripChars w = w → '\n' ∉ w →
        parseLine (k ++ '=' :: w) = some (k, stripQuotes w)) ∧
    (∀ (pre post : List (List Char)) (line : List Char), parseLine line = none →
        parseEnvLines (pre ++ line :: post) = parseEnvLines (pre ++ post)) ∧
    (∀ (lines : List (List Char)) (k : List Char),
        lookupKV (parseEnvLines lines) k =
          (((lines.filterMap parseLine).filter (fun p => p.1 == k)).getLast?).map
            (·.2)) := by
  refine ⟨?_, ?_, ?_, ?_, ?_, ?_⟩
  · intro line h
    unfold parseLine
    rw [h]
  · intro line h
    have hhd : ∃ t, line.dropWhile isSpaceChar = '#' :: t := by
      cases hd : line.dropWhile isSpaceChar with
      | nil => rw [hd] at h; simp at h
      | cons a t =>
          rw [hd] at h
          simp only [List.head?_cons, Option.some.injEq] at h
          exact ⟨t, by rw [h]⟩
    obtain ⟨t, ht⟩ := hhd
    have hstr : stripChars line = '#' :: (t.reverse.dropWhile isSpaceChar).reverse := by
      unfold stripChars
      rw [ht]
      have hsh : isSpaceChar '#' = false := by decide
      have : ('#' :: t).reverse.dropWhile isSpaceChar
          = (t.reverse.dropWhile isSpaceChar) ++ ['#'] := by
        rw [List.reverse_cons, List.dropWhile_append]
        by_cases hte : (t.reverse.dropWhile isSpaceChar).isEmpty = true
        · simp only [hte, if_true]
          simp only [List.isEmpty_iff] at hte
          rw [hte]
          simp [List.dropWhile_cons, hsh]
        · simp [hte]
      rw [this]
      simp
    unfold parseLine
    rw [hstr]
    simp
  · intro line k v h
    have hall : ∀ l : List Char, (l.takeWhile isWordChar).all isWordChar = true := by
      intro l
      induction l with
      | nil => simp
      | cons a t iht =>
          rw [List.takeWhile_cons]
          by_cases ha : isWordChar a = true
          · simp [ha, iht]
          · simp only [Bool.not_eq_true] at ha
            simp [ha]
    unfold parseLine at h
    split at h
    · exact absurd h (by simp)
    · rename_i c rest heq
      split at h
      · exact absurd h (by simp)
      · split at h
        · rename_i hh hi
          split at h
          · rename_i valRest heq2
            simp only [Option.some.injEq, Prod.mk.injEq] at h
            obtain ⟨hk, -⟩ := h
            rw [← hk]
            simp only [isIdentChars, Bool.and_eq_true]
            exact ⟨hi, hall rest⟩
          · exact absurd h (by simp)
        · exact absurd h (by simp)
  · intro k w hk hw _
    exact parseLine_wellFormed k w hk hw
  · intro pre post line h
    unfold parseEnvLines
    rw [List.foldl_append, List.foldl_append, List.foldl_cons, h]
  · intro lines k
    unfold parseEnvLines
    rw [parseFold_lookup]
    cases hF : ((lines.filterMap parseLine).filter (fun p => p.1 == k)).getLast? with
    | none => simp [hF, lookupKV]
    | some p => simp [hF]

theorem parse_env_file_spec_witness :
    parseLine ("KEY".toList ++ '=' :: "\"v 1\"".toList)
      = some ("KEY".toList, "v 1".toList) := by
  have h := parse_env_file_spec.2.2.2.1 "KEY".toList "\"v 1\"".toList
    (by decide) (by decide) (by decide)
  rw [h]
  decide

theorem contains_iff_mem {l : List String} {a : String} :
    l.contains a = true ↔ a ∈ l := by
  simp [List.contains, List.elem_iff]

theorem mem_dedupFold (l : List String) (acc : List String) (p : String) :
    p ∈ l.foldl (fun acc q => if acc.contains q then acc else acc ++ [q]) acc ↔
      p ∈ acc ∨ p ∈ l := by
  induction l generalizing acc with
  | nil => simp
  | cons q rest ih =>
      by_cases hq : acc.contains q = true
      · rw [List.foldl_cons, if_pos hq, ih]
        have hqm : q ∈ acc := contains_iff_mem.mp hq
        constructor
        · rintro (h | h)
          · exact Or.inl h
          · exact Or.inr (List.mem_cons_of_mem _ h)
        · rintro (h | h)
          · exact Or.inl h
          · rcases List.mem_cons.mp h with rfl | h
            · exact Or.inl hqm
            · exact Or.inr h
      · rw [List.foldl_cons, if_neg hq, ih]
        simp only [List.mem_append, List.mem_singleton, List.mem_cons]
        tauto

theorem nodup_dedupFold (l : List String) (acc : List String)
    (hacc : acc.Nodup) :
    (l.foldl (fun acc q => if acc.contains q then acc else acc ++ [q]) acc).Nodup := by
  induction l generalizing acc with
  | nil => simpa using hacc
  | cons q rest ih =>
      by_cases hq : acc.contains q = true
      · rw [List.foldl_cons, if_pos hq]
        exact ih acc hacc
      · rw [List.foldl_cons, if_neg hq]
        apply ih
        rw [List.nodup_append]
        refine ⟨hacc, List.nodup_singleton q, ?_⟩
        intro a ha hb
        rcases List.mem_singleton.mp hb with rfl
        exact hq (contains_iff_mem.mpr ha)

/-- Claim C2, counterexample: The claim's ordering clause fails on the code:
`get_all_env_files` returns `sorted(list(env_files))`, which orders by the
full resolved path, not case-insensitively by file name.  With explicit file
`/b/a.env` and a scan directory containing `/a/z.env`, the merged result puts
`z.env`'s path first even though `a.env` precedes `z.env` in the
case-insensitive file-name order the claim requires. -/
theorem env_discovery_order_cex :
    getAllEnvFiles (fun _ => true) ["/b/a.env"] ["/a/z.env"]
        = ["/a/z.env", "/b/a.env"] ∧
      ¬ nameLe "/a/z.env" "/b/a.env" := by
  constructor
  · decide
  · decide

/-- Claim C2, amended: For every explicit file list and scan directory,
`get_all_env_files` returns exactly the explicitly listed files that exist
together with the scanned files whose name is exactly `.env`, ends with the
`.env` suffix, or contains the `.env.` infix (`local.env` qualifies by
suffix, `app.env.staging` by infix, `notes.txt` does not), de-duplicated by
resolved absolute path across the explicit list and the scan, and ordered
lexicographically by full resolved path (case-insensitively) — not by file
name. -/
theorem getAllEnvFiles_spec (fexists : String → Bool)
    (explicitFiles scanFiles : List String) :
    (∀ p, p ∈ getAllEnvFiles fexists explicitFiles scanFiles ↔
        ((p ∈ explicitFiles ∧ fexists p = true) ∨
          (p ∈ scanFiles ∧ isEnvFileName (fileNameOf p) = true))) ∧
      (getAllEnvFiles fexists explicitFiles scanFiles).Nodup ∧
      List.Sorted pathLe (getAllEnvFiles fexists explicitFiles scanFiles) ∧
      (isEnvFileName ".env" = true ∧ isEnvFileName "local.env" = true ∧
        isEnvFileName "app.env.staging" = true ∧
        isEnvFileName "notes.txt" = false) := by
  refine ⟨?_, ?_, ?_, by decide, by decide, by decide, by decide⟩
  · intro p
    unfold getAllEnvFiles
    rw [List.mem_insertionSort]
    unfold dedupKeepFirst
    rw [mem_dedupFold]
    simp [List.mem_filter]
  · unfold getAllEnvFiles
    rw [(List.perm_insertionSort pathLe _).nodup_iff]
    exact nodup_dedupFold _ _ List.nodup_nil
  · exact List.sorted_insertionSort pathLe _

theorem getAllEnvFiles_spec_witness :
    "/p/local.env" ∈ getAllEnvFiles (fun _ => true) [] ["/p/local.env"] ∧
      List.Sorted pathLe (getAllEnvFiles (fun _ => true) [] ["/p/local.env"]) :=
  ⟨((getAllEnvFiles_spec (fun _ => true) [] ["/p/local.env"]).1
      "/p/local.env").mpr (Or.inr ⟨by decide, by decide⟩),
    (getAllEnvFiles_spec (fun _ => true) [] ["/p/local.env"]).2.2.1⟩

theorem find?_cons_pos {α : Type} (p : α → Bool) (a : α) (l : List α)
    (h : p a = true) : List.find? p (a :: l) = some a :=
  List.find?_cons_of_pos l h

theorem find?_cons_neg {α : Type} (p : α → Bool) (a : α) (l : List α)
    (h : p a = false) : List.find? p (a :: l) = List.find? p l :=
  List.find?_cons_of_neg l (by simp [h])

theorem find?_filter_ne {α : Type} (l : List (String × α)) (n k : String)
    (hnk : ¬ k = n) :
    (l.filter (fun q => !(q.1 == n))).find? (fun p => p.1 == k)
      = l.find? (fun p => p.1 == k) := by
  induction l with
  | nil => rfl
  | cons q rest ih =>
      by_cases hqn : (q.1 == n) = true
      · have hq1 : q.1 = n := by simpa using hqn
        have hpq : (q.1 == k) = false := by
          simp [hq1]
          exact fun h => hnk h.symm
        rw [List.filter_cons, hqn]
        simp only [Bool.not_true, Bool.false_eq_true, if_false]
        rw [find?_cons_neg (fun p => p.1 == k) q rest hpq]
        exact ih
      · have hqn' : (q.1 == n) = false := by simpa using hqn
        rw [List.filter_cons, hqn']
        simp only [Bool.not_false, if_true]
        by_cases hpq : (q.1 == k) = true
        · rw [find?_cons_pos (fun p => p.1 == k) q _ hpq,
            find?_cons_pos (fun p => p.1 == k) q rest hpq]
        · have hpq' : (q.1 == k) = false := by simpa using hpq
          rw [find?_cons_neg (fun p => p.1 == k) q _ hpq',
            find?_cons_neg (fun p => p.1 == k) q rest hpq']
          exact ih

theorem filter_filter_notMem {α : Type} (l : List (String × α)) (n : String)
    (order : List String) :
    (l.filter (fun q => !(q.1 == n))).filter (fun p => !(order.contains p.1))
      = l.filter (fun p => !((n :: order).contains p.1)) := by
  rw [List.filter_filter]
  apply List.filter_congr
  intro p _
  rw [List.contains_cons]
  cases hpn : (p.1 == n) <;> cases ho : order.contains p.1 <;> rfl

theorem keys_nodup_filter {α : Type} (l : List (String × α)) (pred : String × α → Bool)
    (h : (l.map (·.1)).Nodup) : ((l.filter pred).map (·.1)).Nodup :=
  List.Nodup.sublist (List.Sublist.map _ (List.filter_sublist l)) h

theorem sortStep_foldl (order : List String) (acc : List AppConfig)
    (configs : List (String × AppConfig)) (hord : order.Nodup)
    (hkeys : (configs.map (·.1)).Nodup) :
    order.foldl sortStep (acc, configs) =
      (acc ++ order.filterMap
          (fun n => (configs.find? (fun p => p.1 == n)).map (·.2)),
        configs.filter (fun p => !(order.contains p.1))) := by
  induction order generalizing acc configs with
  | nil =>
      simp only [List.foldl_nil, List.filterMap_nil, List.append_nil]
      rw [List.filter_eq_self.mpr]
      intro a _
      rfl
  | cons n rest ih =>
      have hordr : rest.Nodup := hord.of_cons
      have hnr : n ∉ rest := (List.nodup_cons.mp hord).1
      rw [List.foldl_cons]
      cases hf : configs.find? (fun p => p.1 == n) with
      | none =>
          have hstep : sortStep (acc, configs) n = (acc, configs) := by
            unfold sortStep
            rw [hf]
          have hnone : ∀ p ∈ configs, ¬ (p.1 == n) = true :=
            List.find?_eq_none.mp hf
          have e1 : List.filterMap
              (fun n' => (configs.find? (fun p => p.1 == n')).map (·.2)) (n :: rest)
              = List.filterMap
                (fun n' => (configs.find? (fun p => p.1 == n')).map (·.2)) rest :=
            List.filterMap_cons_none (by rw [hf]; rfl)
          have e2 : configs.filter (fun p => !((n :: rest).contains p.1))
              = configs.filter (fun p => !(rest.contains p.1)) := by
            apply List.filter_congr
            intro p hp
            rw [List.contains_cons]
            have hb : (p.1 == n) = false := by simpa using hnone p hp
            rw [hb]
            rfl
          rw [hstep, ih acc configs hordr hkeys, e1, e2]
      | some p =>
          have hstep : sortStep (acc, configs) n
              = (acc ++ [p.2], configs.filter (fun q => !(q.1 == n))) := by
            unfold sortStep
            rw [hf]
          have e1 : List.filterMap
              (fun n' => (configs.find? (fun q => q.1 == n')).map (·.2)) (n :: rest)
              = p.2 :: List.filterMap
                (fun n' => (configs.find? (fun q => q.1 == n')).map (·.2)) rest :=
            List.filterMap_cons_some (by rw [hf]; rfl)
          have e3 : List.filterMap
              (fun n' => ((configs.filter (fun q => !(q.1 == n))).find?
                (fun q => q.1 == n')).map (·.2)) rest
              = List.filterMap
                (fun n' => (configs.find? (fun q => q.1 == n')).map (·.2)) rest := by
            apply List.filterMap_congr
            intro k hk
            have hkn : ¬ k = n := fun he => hnr (he ▸ hk)
            rw [find?_filter_ne configs n k hkn]
          rw [hstep, ih (acc ++ [p.2]) _ hordr (keys_nodup_filter configs _ hkeys),
            e1, e3, filter_filter_notMem, List.append_assoc, List.singleton_append]

theorem map_snd_filter_perm {α : Type} (configs : List (String × α)) (n : String)
    (p : String × α) (hf : configs.find? (fun q => q.1 == n) = some p)
    (hkeys : (configs.map (·.1)).Nodup) :
    (configs.map (·.2)).Perm
      (p.2 :: (configs.filter (fun q => !(q.1 == n))).map (·.2)) := by
  induction configs with
  | nil => simp at hf
  | cons q rest ih =>
      rw [List.map_cons, List.nodup_cons] at hkeys
      by_cases hq : (q.1 == n) = true
      · rw [find?_cons_pos (fun r => r.1 == n) q rest hq] at hf
        have hpq : q = p := Option.some.inj hf
        subst hpq
        have hq1 : q.1 = n := by simpa using hq
        have hrest : rest.filter (fun r => !(r.1 == n)) = rest := by
          rw [List.filter_eq_self]
          intro a ha
          have hne : ¬ a.1 = q.1 := by
            intro he
            exact hkeys.1 (he ▸ List.mem_map_of_mem (·.1) ha)
          rw [hq1] at hne
          simp [hne]
        rw [List.filter_cons, hq]
        simp only [Bool.not_true, Bool.false_eq_true, if_false]
        rw [hrest, List.map_cons]
      · have hq' : (q.1 == n) = false := by simpa using hq
        rw [find?_cons_neg (fun r => r.1 == n) q rest hq'] at hf
        rw [List.filter_cons, hq']
        simp only [Bool.not_false, if_true]
        rw [List.map_cons, List.map_cons]
        exact ((ih hf hkeys.2).cons q.2).trans (List.Perm.swap _ _ _)

theorem pick_append_filter_perm {α : Type} (order : List String)
    (configs : List (String × α)) (hord : order.Nodup)
    (hkeys : (configs.map (·.1)).Nodup) :
    (order.filterMap (fun n => (configs.find? (fun p => p.1 == n)).map (·.2))
        ++ (configs.filter (fun p => !(order.contains p.1))).map (·.2)).Perm
      (configs.map (·.2)) := by
  induction order generalizing configs with
  | nil =>
      simp only [List.filterMap_nil, List.nil_append]
      have hfe : configs.filter (fun p => !(([] : List String).contains p.1))
          = configs := by
        rw [List.filter_eq_self]
        intro a _
        rfl
      rw [hfe]
  | cons n rest ih =>
      have hordr : rest.Nodup := hord.of_cons
      have hnr : n ∉ rest := (List.nodup_cons.mp hord).1
      cases hf : configs.find? (fun p => p.1 == n) with
      | none =>
          have hnone : ∀ p ∈ configs, ¬ (p.1 == n) = true :=
            List.find?_eq_none.mp hf
          rw [List.filterMap_cons_none (by rw [hf]; rfl)]
          have hfc : configs.filter (fun p => !((n :: rest).contains p.1))
              = configs.filter (fun p => !(rest.contains p.1)) := by
            apply List.filter_congr
            intro p hp
            rw [List.contains_cons]
            have hb : (p.1 == n) = false := by simpa using hnone p hp
            rw [hb]
            rfl
          rw [hfc]
          exact ih configs hordr hkeys
      | some p =>
          rw [List.filterMap_cons_some (by rw [hf]; rfl)]
          have h1 : List.filterMap
              (fun n' => (configs.find? (fun q => q.1 == n')).map (·.2)) rest
              = List.filterMap
                (fun n' => ((configs.filter (fun q => !(q.1 == n))).find?
                  (fun q => q.1 == n')).map (·.2)) rest := by
            apply List.filterMap_congr
            intro k hk
            have hkn : ¬ k = n := fun he => hnr (he ▸ hk)
            rw [find?_filter_ne configs n k hkn]
          have h2 : configs.filter (fun q => !((n :: rest).contains q.1))
              = (configs.filter (fun q => !(q.1 == n))).filter
                  (fun q => !(rest.contains q.1)) :=
            (filter_filter_notMem configs n rest).symm
          rw [List.cons_append, h1, h2]
          refine List.Perm.trans (List.Perm.cons p.2
            (ih (configs.filter (fun q => !(q.1 == n))) hordr
              (keys_nodup_filter configs _ hkeys))) ?_
          exact (map_snd_filter_perm configs n p hf hkeys).symm

theorem filterMap_find?_filter_present {α : Type} (order : List String)
    (configs : List (String × α)) :
    (order.filter (fun n => configs.any (fun p => p.1 == n))).filterMap
        (fun n => (configs.find? (fun p => p.1 == n)).map (·.2))
      = order.filterMap (fun n => (configs.find? (fun p => p.1 == n)).map (·.2)) := by
  induction order with
  | nil => rfl
  | cons n rest ih =>
      by_cases hp : configs.any (fun p => p.1 == n) = true
      · obtain ⟨q, hq, hqn⟩ := List.any_eq_true.mp hp
        cases hf : configs.find? (fun p => p.1 == n) with
        | none => exact absurd hqn (List.find?_eq_none.mp hf q hq)
        | some r =>
            rw [List.filter_cons, if_pos hp,
              List.filterMap_cons_some (by rw [hf]; rfl),
              List.filterMap_cons_some (by rw [hf]; rfl), ih]
      · have hp' : configs.any (fun p => p.1 == n) = false := Bool.eq_false_iff.mpr hp
        have hf : configs.find? (fun p => p.1 == n) = none := by
          rw [List.find?_eq_none]
          intro x hx hc
          exact hp (List.any_eq_true.mpr ⟨x, hx, hc⟩)
        rw [List.filter_cons]
        simp only [hp', Bool.false_eq_true, if_false]
        rw [List.filterMap_cons_none (by rw [hf]; rfl), ih]

/-- Claim C4: For every set of loaded configs (a dictionary, so identities are
unique) and every duplicate-free order index: each identity of the `order`
list of `master.json` that is present in the loaded set appears in the
returned sequence in exactly that prefix order; identities with no matching
config are silently ignored; and all configs not listed are appended
afterwards sorted case-insensitively by display name.  Stated as equality of
`_sort_configs` with the sequence the claim describes. -/
theorem sortConfigs_eq_spec (order : List String)
    (configs : List (String × AppConfig)) (hord : order.Nodup)
    (hkeys : (configs.map (·.1)).Nodup) :
    sortConfigs order configs = sortConfigsSpec order configs := by
  show (order.foldl sortStep ([], configs)).1
      ++ List.insertionSort displayLe ((order.foldl sortStep ([], configs)).2.map (·.2))
    = sortConfigsSpec order configs
  rw [sortStep_foldl order [] configs hord hkeys]
  unfold sortConfigsSpec
  rw [filterMap_find?_filter_present]
  simp only [List.nil_append]

theorem sortConfigs_eq_spec_witness :
    sortConfigs ["b", "zz", "a"]
        [("a", demoConfig "a" "Alpha"), ("b", demoConfig "b" "Beta"),
          ("c", demoConfig "c" "Gamma")]
      = sortConfigsSpec ["b", "zz", "a"]
        [("a", demoConfig "a" "Alpha"), ("b", demoConfig "b" "Beta"),
          ("c", demoConfig "c" "Gamma")] :=
  sortConfigs_eq_spec _ _ (by decide) (by decide)

theorem upsert_of_not_mem {α : Type} (k : String) (v : α)
    (m : List (String × α)) (h : k ∉ m.map (·.1)) :
    upsert k v m = m ++ [(k, v)] := by
  induction m with
  | nil => rfl
  | cons p rest ih =>
      rw [List.map_cons, List.mem_cons] at h
      push_neg at h
      have hb : (p.1 == k) = false := by
        simpa using fun he => h.1 he.symm
      unfold upsert
      rw [hb]
      simp only [Bool.false_eq_true, if_false, List.cons_append]
      rw [ih h.2]

theorem loadFold_eq (fexists : String → Bool) (files : List SrcFile)
    (acc : List (String × AppConfig))
    (h : (acc.map (·.1)
        ++ (validRecords fexists files).map (·.configName)).Nodup) :
    files.foldl
      (fun m f =>
        if f.fname == "master.json" then m
        else
          match f.data with
          | none => m
          | some d =>
              let c := mkAppConfig f.fname d
              if validateConfig fexists c then upsert c.configName c m else m)
      acc
      = acc ++ (validRecords fexists files).map (fun c => (c.configName, c)) := by
  induction files generalizing acc with
  | nil => simp [validRecords]
  | cons f rest ih =>
      rw [List.foldl_cons]
      by_cases hm : (f.fname == "master.json") = true
      · have hv : validRecords fexists (f :: rest) = validRecords fexists rest := by
          unfold validRecords
          rw [List.filter_cons, hm]
          simp
        rw [hv] at h
        simp only [hm, if_true]
        rw [ih acc h, hv]
      · have hm' : (f.fname == "master.json") = false := by simpa using hm
        have hfc : (f :: rest).filter (fun g => !(g.fname == "master.json"))
            = f :: rest.filter (fun g => !(g.fname == "master.json")) := by
          rw [List.filter_cons, hm']
          simp
        cases hd : f.data with
        | none =>
            have hv : validRecords fexists (f :: rest) = validRecords fexists rest := by
              unfold validRecords
              rw [hfc, List.filterMap_cons_none (by rw [hd])]
            rw [hv] at h
            simp only [hm', hd, Bool.false_eq_true, if_false]
            rw [ih acc h, hv]
        | some d =>
            by_cases hval : validateConfig fexists (mkAppConfig f.fname d) = true
            · have hv : validRecords fexists (f :: rest)
                  = mkAppConfig f.fname d :: validRecords fexists rest := by
                unfold validRecords
                rw [hfc, List.filterMap_cons_some]
                rw [hd]
                simp only [hval, if_true]
              rw [hv] at h
              simp only [hm', hd, hval, Bool.false_eq_true, if_false, if_true]
              have hnotin : (mkAppConfig f.fname d).configName ∉ acc.map (·.1) := by
                rw [List.map_cons] at h
                intro hmem
                have hdisj := (List.nodup_append.mp h).2.2
                exact hdisj hmem (List.mem_cons_self _ _)
              rw [upsert_of_not_mem _ _ acc hnotin]
              have h' : ((acc ++ [((mkAppConfig f.fname d).configName,
                  mkAppConfig f.fname d)]).map (·.1)
                  ++ (validRecords fexists rest).map (·.configName)).Nodup := by
                rw [List.map_append]
                rw [List.append_assoc]
                simpa using h
              rw [ih _ h', hv]
              simp
            · have hval' : validateConfig fexists (mkAppConfig f.fname d) = false :=
                Bool.eq_false_iff.mpr hval
              have hv : validRecords fexists (f :: rest) = validRecords fexists rest := by
                unfold validRecords
                rw [hfc, List.filterMap_cons_none]
                rw [hd]
                simp only [hval', Bool.false_eq_true, if_false]
              rw [hv] at h
              simp only [hm', hd, hval', Bool.false_eq_true, if_false]
              rw [ih acc h, hv]

theorem sortConfigs_perm (order : List String)
    (configs : List (String × AppConfig)) (hord : order.Nodup)
    (hkeys : (configs.map (·.1)).Nodup) :
    (sortConfigs order configs).Perm (configs.map (·.2)) := by
  show ((order.foldl sortStep ([], configs)).1
      ++ List.insertionSort displayLe
        ((order.foldl sortStep ([], configs)).2.map (·.2))).Perm _
  rw [sortStep_foldl order [] configs hord hkeys]
  simp only [List.nil_append]
  refine List.Perm.trans
    (List.Perm.append_left _ (List.perm_insertionSort _ _)) ?_
  exact pick_append_filter_perm order configs hord hkeys

/-- Claim C9: For every configuration directory (with distinct record
identities) and duplicate-free order list, `load_all_configs` is total (no
exception escapes: parse failures and validation failures of individual
records are modelled as data, each skipped with only a warning), and the
returned sequence contains exactly the records that parse and validate — a
permutation of the valid subset (the ordering is `_sort_configs`' concern). -/
theorem load_all_configs_valid (fexists : String → Bool) (order : List String)
    (files : List SrcFile) (hord : order.Nodup)
    (hkeys : ((validRecords fexists files).map (·.configName)).Nodup) :
    (loadAllConfigs fexists order files).Perm (validRecords fexists files) := by
  show (sortConfigs order (files.foldl _ [])).Perm _
  rw [loadFold_eq fexists files [] (by simpa using hkeys)]
  simp only [List.nil_append]
  have hk2 : (((validRecords fexists files).map
      (fun c => (c.configName, c))).map (·.1)).Nodup := by
    rw [List.map_map]
    exact hkeys
  refine (sortConfigs_perm order _ hord hk2).trans ?_
  have hid : ∀ l : List AppConfig,
      (l.map (fun c => (c.configName, c))).map (·.2) = l := by
    intro l
    induction l with
    | nil => rfl
    | cons a t iht => simp [iht]
  rw [hid]

theorem load_all_configs_valid_witness :
    (loadAllConfigs (fun p => p == "app.py") ["alpha"]
        [⟨"master.json", some {}⟩, ⟨"alpha.json", some { script? := some "app.py" }⟩,
          ⟨"broken.json", none⟩, ⟨"bad.json", some { script? := some "gone.py" }⟩,
          ⟨"novenv.json", some { script? := some "app.py", venv? := some "/venv" }⟩]).Perm
      (validRecords (fun p => p == "app.py")
        [⟨"master.json", some {}⟩, ⟨"alpha.json", some { script? := some "app.py" }⟩,
          ⟨"broken.json", none⟩, ⟨"bad.json", some { script? := some "gone.py" }⟩,
          ⟨"novenv.json", some { script? := some "app.py", venv? := some "/venv" }⟩]) :=
  load_all_configs_valid _ _ _ (by decide) (by decide)

/-- Claim C10: For every app configuration the parameter-set menu is non-empty:
when the config declares no parameter sets, a single default item named
`Run` with an empty params string is returned, so a selection step always
has at least one option. -/
theorem build_param_menu_nonempty (cfg : AppConfig) :
    build_param_menu_items cfg ≠ [] ∧
      (cfg.parameter_sets = [] →
        build_param_menu_items cfg
          = [("Run", { name? := some "Run", params? := some "" })]) := by
  constructor
  · by_cases h : (cfg.parameter_sets.map
        (fun ps => (ps.name?.getD "Unnamed", ps))).isEmpty = true
    · simp [build_param_menu_items, h]
    · have h' : _ = false := Bool.eq_false_iff.mpr h
      simp only [build_param_menu_items, h', Bool.false_eq_true, if_false]
      simpa [List.isEmpty_iff] using h
  · intro h
    simp [build_param_menu_items, h]

theorem build_param_menu_nonempty_witness :
    build_param_menu_items (demoConfig "a" "A")
        = [("Run", { name? := some "Run", params? := some "" })] ∧
      build_param_menu_items (demoConfig "a" "A") ≠ [] :=
  ⟨(build_param_menu_nonempty (demoConfig "a" "A")).2 rfl,
    (build_param_menu_nonempty (demoConfig "a" "A")).1⟩

/-! ### Lemmas about the resolver -/

theorem findTokensAux_wordRun :
    ∀ (cs t rest : List Char), cs.all isWordChar = true →
      findTokensAux (some t) (cs ++ rest)
        = findTokensAux (some (cs.reverse ++ t)) rest := by
  intro cs
  induction cs with
  | nil =>
      intro t rest _
      simp
  | cons c cs' ih =>
      intro t rest h
      rw [List.all_cons, Bool.and_eq_true] at h
      rw [List.cons_append]
      show findTokensAux (some t) (c :: (cs' ++ rest)) = _
      simp only [findTokensAux, h.1, if_true]
      rw [ih (c :: t) rest h.2]
      congr 2
      simp

theorem substTokensAux_wordRun (cache : List (String × String)) :
    ∀ (cs t rest : List Char), cs.all isWordChar = true →
      substTokensAux cache (some t) (cs ++ rest)
        = substTokensAux cache (some (cs.reverse ++ t)) rest := by
  intro cs
  induction cs with
  | nil =>
      intro t rest _
      simp
  | cons c cs' ih =>
      intro t rest h
      rw [List.all_cons, Bool.and_eq_true] at h
      rw [List.cons_append]
      show substTokensAux cache (some t) (c :: (cs' ++ rest)) = _
      simp only [substTokensAux, h.1, if_true]
      rw [ih (c :: t) rest h.2]
      congr 2
      simp

theorem contains_dollar_of_findTokens :
    ∀ (cs : List Char) (s : String), s ∈ findTokensAux none cs →
      cs.contains '$' = true := by
  intro cs
  induction cs with
  | nil =>
      intro s h
      simp [findTokensAux] at h
  | cons c rest ih =>
      intro s h
      by_cases hc : (c == '$') = true
      · have hce : c = '$' := by simpa using hc
        subst hce
        rw [List.contains_cons]
        simp
      · have hc' : (c == '$') = false := by simpa using hc
        simp only [findTokensAux, hc', Bool.false_eq_true, if_false] at h
        rw [List.contains_cons, ih s h]
        simp

theorem resolve_known_input (w : World) (cfg : VarConfig)
    (htype : cfg.type?.getD "input" = "input") :
    resolve_known w cfg = (prompt_input w cfg (cfg.default?.getD ""), 1) := by
  unfold resolve_known
  rw [htype, if_neg (by decide), if_neg (by decide), if_pos (by decide)]

theorem resolve_variable_found (w : World) (vars : List (String × VarConfig))
    (vname : String) (vc : VarConfig)
    (hlook : lookupKV vars vname = some vc) :
    resolve_variable w vars vname = resolve_known w vc := by
  unfold resolve_variable
  rw [hlook]

theorem prompt_input_cancel_empty (w : World) (vc : VarConfig)
    (hcancel : w.askString (vc.prompt?.getD "Enter value") (vc.default?.getD "") = none)
    (hdflt : vc.default?.getD "" = "") :
    prompt_input w vc (vc.default?.getD "") = none := by
  unfold prompt_input
  rw [hcancel, hdflt]
  rfl

theorem resolveLoop_cancelled (w : World) (vars : List (String × VarConfig))
    (vname : String)
    (hres : (resolve_variable w vars vname).1 = none) :
    ∀ (toks : List String) (cache : List (String × String)) (n : Nat),
      vname ∈ toks → lookupKV cache vname = none →
      (resolveLoop w vars toks cache n).1 = false := by
  intro toks
  induction toks with
  | nil =>
      intro cache n h _
      simp at h
  | cons t rest ih =>
      intro cache n hmem hcache
      by_cases ht : t = vname
      · subst ht
        show (resolveLoop w vars (t :: rest) cache n).1 = false
        simp only [resolveLoop]
        rw [hcache]
        rcases hr : resolve_variable w vars t with ⟨o, k'⟩
        have ho : o = none := by
          rw [hr] at hres
          exact hres
        subst ho
        rfl
      · have hmem' : vname ∈ rest := by
          rcases List.mem_cons.mp hmem with h | h
          · exact absurd h.symm ht
          · exact h
        show (resolveLoop w vars (t :: rest) cache n).1 = false
        simp only [resolveLoop]
        cases hc : lookupKV cache t with
        | some v0 => exact ih cache n hmem' hcache
        | none =>
            rcases hr : resolve_variable w vars t with ⟨o, k'⟩
            cases o with
            | none => rfl
            | some v =>
                have hcache' : lookupKV (upsert t v cache) vname = none := by
                  rw [lookupKV_upsert]
                  rw [if_neg (by simpa using ht)]
                  exact hcache
                exact ih (upsert t v cache) (n + k') hmem' hcache'

theorem mem_dedupKeepFirst (l : List String) (p : String) :
    p ∈ dedupKeepFirst l ↔ p ∈ l := by
  unfold dedupKeepFirst
  rw [mem_dedupFold]
  simp

/-- Claim C1, counterexample: The claim fails on the code when the descriptor
has a non-empty default: with `variables: {mode: {type: input, default:
"dev"}}` and the text prompt cancelled, `_prompt_input` falls back to the
default (src/variable_resolver.py line 157), so `resolve_parameters` does
not signal cancellation and the orchestrator goes on to spawn the process. -/
theorem input_cancel_default_fallback_cex :
    (resolve_parameters wCancel demoAppCfg.variables_config [] "--mode=$mode").result
        = some "--mode=dev" ∧
      launch_app_with_config wCancel lwOk demoAppCfg none (some debugPS)
        = { resolved := some "--mode=dev"
            outcome := some { success := true, spawned := true }
            prompts := 1 } := by
  constructor
  · decide
  · decide

/-- Claim C1, amended: For every variable descriptor of type `input` whose
default is empty, if the user cancels the text prompt during resolution, the
whole batch resolution of that launch request is aborted
(`resolve_parameters` returns `None`), and the orchestrator then returns
without invoking `launch_app`, so no process is spawned.  (With a non-empty
default the cancelled prompt falls back to the default instead.) -/
theorem input_cancel_empty_default_aborts (w : World) (lw : LaunchWorld)
    (cfg : AppConfig) (envFile : Option String) (ps : ParamSet)
    (vname p : String) (vc : VarConfig)
    (hps : ps.params? = some p)
    (htok : vname ∈ findTokens p.toList)
    (hlook : lookupKV cfg.variables_config vname = some vc)
    (htype : vc.type?.getD "input" = "input")
    (hdflt : vc.default?.getD "" = "")
    (hcancel : w.askString (vc.prompt?.getD "Enter value")
      (vc.default?.getD "") = none) :
    (resolve_parameters w cfg.variables_config [] p).result = none ∧
      launch_app_with_config w lw cfg envFile (some ps)
        = { resolved := none, outcome := none
            prompts := (resolve_parameters w cfg.variables_config [] p).prompts } := by
  have hres1 : (resolve_variable w cfg.variables_config vname).1 = none := by
    rw [resolve_variable_found w _ vname vc hlook, resolve_known_input w vc htype]
    exact prompt_input_cancel_empty w vc hcancel hdflt
  have htokd : vname ∈ dedupKeepFirst (findTokens p.toList) :=
    (mem_dedupKeepFirst _ vname).mpr htok
  have hloop : (resolveLoop w cfg.variables_config
      (dedupKeepFirst (findTokens p.toList)) [] 0).1 = false :=
    resolveLoop_cancelled w _ vname hres1 _ [] 0 htokd rfl
  have hrp : (resolve_parameters w cfg.variables_config [] p).result = none := by
    unfold resolve_parameters
    rcases hL : resolveLoop w cfg.variables_config
        (dedupKeepFirst (findTokens p.toList)) [] 0 with ⟨b, cache, n⟩
    rw [hL] at hloop
    have hb : b = false := hloop
    subst hb
    rfl
  refine ⟨hrp, ?_⟩
  have hpof : paramsOf (some ps) = p := by
    show ps.params?.getD "" = p
    rw [hps]
    rfl
  have hcond : ((some ps : Option ParamSet).isSome
      && (paramsOf (some ps)).toList.contains '$') = true := by
    rw [hpof]
    simp only [Option.isSome_some, Bool.true_and]
    exact contains_dollar_of_findTokens p.toList vname htok
  unfold launch_app_with_config
  rw [if_pos hcond, hpof]
  unfold orchFromResolve
  rw [hrp]

theorem input_cancel_empty_default_aborts_witness :
    (resolve_parameters wCancel demoAppCfgE.variables_config []
        "--mode=$mode").result = none ∧
      launch_app_with_config wCancel lwOk demoAppCfgE none (some debugPS)
        = { resolved := none, outcome := none
            prompts := (resolve_parameters wCancel demoAppCfgE.variables_config []
              "--mode=$mode").prompts } :=
  input_cancel_empty_default_aborts wCancel lwOk demoAppCfgE none debugPS
    "mode" "--mode=$mode" modeVarE rfl (by decide) (by decide) rfl rfl rfl

/-! ### C3: lifetime of the resolved-variable cache -/

/-- Claim C3, counterexample: A value resolved during a prior successful launch
is **not** available to a later launch of the same session:
`launch_app_with_config` constructs a fresh `VariableResolver` (empty cache)
per launch, so the second identical launch prompts again (prompt counts
`[1, 1]`, not `[1, 0]`), even though the first launch succeeded. -/
theorem session_cache_not_persistent_cex :
    (runSession wAnswer lwOk demoAppCfg
        [(none, some debugPS), (none, some debugPS)]).map (·.prompts)
        = [1, 1] ∧
      (launch_app_with_config wAnswer lwOk demoAppCfg none (some debugPS)).outcome
        = some { success := true, spawned := true } := by
  constructor
  · decide
  · decide

/-- Claim C3, amended: The resolved-variable cache lives only for the duration
of one launch request's batch resolution: each `launch_app_with_config` call
constructs a fresh `VariableResolver` with an empty cache, so every launch
of a session behaves identically and a launch that prompts once prompts
once again at every repetition — no resolution is carried over from a prior
launch of the same session.  (Within one batch, a repeated token is still
resolved at most once; see the determinism theorem.) -/
theorem variable_cache_fresh_per_launch (w : World) (lw : LaunchWorld)
    (cfg : AppConfig) (envFile : Option String) (ps : Option ParamSet) (k : Nat)
    (hp : (launch_app_with_config w lw cfg envFile ps).prompts = 1) :
    (runSession w lw cfg (List.replicate k (envFile, ps))).map (·.prompts)
      = List.replicate k 1 := by
  unfold runSession
  rw [List.map_replicate, List.map_replicate, hp]

theorem variable_cache_fresh_per_launch_witness :
    (runSession wAnswer lwOk demoAppCfg
        (List.replicate 2 ((none : Option String), some debugPS))).map (·.prompts)
      = List.replicate 2 1 :=
  variable_cache_fresh_per_launch wAnswer lwOk demoAppCfg none (some debugPS) 2
    (by decide)

/-! ### C7: each distinct token resolved at most once per batch -/

theorem flushTok_some (cache : List (String × String)) (t : List Char) :
    flushTok cache (some t)
      = if t.isEmpty then ['$']
        else
          match lookupKV cache (⟨t.reverse⟩ : String) with
          | some v => v.toList
          | none => '$' :: t.reverse := rfl

theorem findTokens_two_refs (n : List Char) (hn : n ≠ [])
    (hw : n.all isWordChar = true) :
    findTokens ('$' :: n ++ ' ' :: '$' :: n) = [(⟨n⟩ : String), ⟨n⟩] := by
  have hie : n.reverse.isEmpty = false := by
    rw [List.isEmpty_eq_false_iff_exists_mem]
    rcases List.exists_mem_of_ne_nil n hn with ⟨a, ha⟩
    exact ⟨a, List.mem_reverse.mpr ha⟩
  have h1 : findTokens ('$' :: n ++ ' ' :: '$' :: n)
      = findTokensAux (some []) (n ++ ' ' :: '$' :: n) := rfl
  rw [h1, findTokensAux_wordRun n [] _ hw, List.append_nil]
  have h2 : findTokensAux (some n.reverse) (' ' :: '$' :: n)
      = (if n.reverse.isEmpty then [] else [(⟨n.reverse.reverse⟩ : String)])
        ++ findTokensAux (some []) n := rfl
  rw [h2, hie]
  simp only [Bool.false_eq_true, if_false, List.reverse_reverse]
  have h3 : findTokensAux (some []) n
      = findTokensAux (some (n.reverse ++ [])) [] := by
    have := findTokensAux_wordRun n [] [] hw
    rw [List.append_nil] at this
    exact this
  rw [h3, List.append_nil]
  show [(⟨n⟩ : String)] ++ (if n.reverse.isEmpty then []
    else [(⟨n.reverse.reverse⟩ : String)]) = _
  rw [hie]
  simp

theorem substTokens_two_refs (n : List Char) (v : String) (hn : n ≠ [])
    (hw : n.all isWordChar = true) :
    substTokensAux [((⟨n⟩ : String), v)] none ('$' :: n ++ ' ' :: '$' :: n)
      = v.toList ++ ' ' :: v.toList := by
  have hie : n.reverse.isEmpty = false := by
    rw [List.isEmpty_eq_false_iff_exists_mem]
    rcases List.exists_mem_of_ne_nil n hn with ⟨a, ha⟩
    exact ⟨a, List.mem_reverse.mpr ha⟩
  have hfl : flushTok [((⟨n⟩ : String), v)] (some n.reverse) = v.toList := by
    rw [flushTok_some, hie]
    simp only [Bool.false_eq_true, if_false, List.reverse_reverse]
    have hlk : lookupKV [((⟨n⟩ : String), v)] (⟨n⟩ : String) = some v := by
      rw [lookupKV_cons]
      simp
    rw [hlk]
  have h1 : substTokensAux [((⟨n⟩ : String), v)] none ('$' :: n ++ ' ' :: '$' :: n)
      = substTokensAux [((⟨n⟩ : String), v)] (some []) (n ++ ' ' :: '$' :: n) := rfl
  rw [h1, substTokensAux_wordRun _ n [] _ hw, List.append_nil]
  have h2 : substTokensAux [((⟨n⟩ : String), v)] (some n.reverse) (' ' :: '$' :: n)
      = flushTok [((⟨n⟩ : String), v)] (some n.reverse)
        ++ ' ' :: substTokensAux [((⟨n⟩ : String), v)] none ('$' :: n) := rfl
  rw [h2, hfl]
  have h3 : substTokensAux [((⟨n⟩ : String), v)] none ('$' :: n)
      = substTokensAux [((⟨n⟩ : String), v)] (some (n.reverse ++ [])) [] := by
    have := substTokensAux_wordRun [((⟨n⟩ : String), v)] n [] [] hw
    rw [List.append_nil] at this
    exact this
  rw [h3, List.append_nil]
  show v.toList ++ ' ' :: flushTok [((⟨n⟩ : String), v)] (some n.reverse) = _
  rw [hfl]

/-- Claim C7: Within one batch resolution call, all distinct `$IDENTIFIER`
tokens are collected before any resolution begins and each distinct token is
resolved at most once: resolving a parameter string that references the same
token twice (`"$name $name"`) substitutes the identical value at both
occurrences, caches one entry, and invokes the interactive prompt exactly
once (the hypothesis states that resolving the variable performs one prompt
returning `v`). -/
theorem resolve_parameters_dedup (w : World) (vars : List (String × VarConfig))
    (n : List Char) (v : String) (hn : n ≠ [])
    (hw : n.all isWordChar = true)
    (hres : resolve_variable w vars ⟨n⟩ = (some v, 1)) :
    resolve_parameters w vars [] ⟨'$' :: n ++ ' ' :: '$' :: n⟩
      = { result := some (v ++ " " ++ v), cache := [((⟨n⟩ : String), v)]
          prompts := 1 } := by
  have htl : (⟨'$' :: n ++ ' ' :: '$' :: n⟩ : String).toList
      = '$' :: n ++ ' ' :: '$' :: n := rfl
  have hdd : dedupKeepFirst [(⟨n⟩ : String), ⟨n⟩] = [(⟨n⟩ : String)] := by
    unfold dedupKeepFirst
    simp [List.contains_cons]
  have hloop : resolveLoop w vars [(⟨n⟩ : String)] [] 0
      = (true, [((⟨n⟩ : String), v)], 1) := by
    simp only [resolveLoop]
    rw [show lookupKV ([] : List (String × String)) (⟨n⟩ : String) = none from rfl]
    rw [hres]
    rfl
  have hsub := substTokens_two_refs n v hn hw
  have hstr : (⟨v.toList ++ ' ' :: v.toList⟩ : String) = v ++ " " ++ v := by
    show String.mk (v.data ++ ' ' :: v.data) = String.mk ((v.data ++ [' ']) ++ v.data)
    rw [List.append_assoc, List.singleton_append]
  unfold resolve_parameters
  rw [htl, findTokens_two_refs n hn hw, hdd, hloop]
  simp only [hsub, hstr]

theorem resolve_parameters_dedup_witness :
    resolve_parameters wAnswer demoAppCfg.variables_config [] ⟨'$' :: "mode".toList
        ++ ' ' :: '$' :: "mode".toList⟩
      = { result := some ("v1" ++ " " ++ "v1")
          cache := [((⟨"mode".toList⟩ : String), "v1")], prompts := 1 } :=
  resolve_parameters_dedup wAnswer demoAppCfg.variables_config "mode".toList "v1"
    (by decide) (by decide) (by decide)

/-! ### C8: failure modes of `launch_app` -/

/-- Claim C8: For every launch: if a declared interpreter environment root
lacks its activation entry point (`Scripts/activate.bat`), `launch_app`
returns failure before any process is spawned; and an OS-level spawn failure
is caught and reported, and the function returns failure (it is total — no
exception escapes to the orchestrator). -/
theorem launch_app_failure_modes (lw : LaunchWorld) (script params : String)
    (venv : Option String) (envFiles : List String) (wd : Option String) :
    (∀ vp, venv = some vp →
        lw.fileExists (vp ++ "/Scripts/activate.bat") = false →
        launch_app lw script params venv envFiles wd
          = { success := false, spawned := false }) ∧
      (lw.spawn = none →
        (launch_app lw script params venv envFiles wd).success = false) := by
  constructor
  · intro vp hv hact
    have hvm : venvMissing lw venv = true := by
      rw [hv]
      show (!(lw.fileExists (vp ++ "/Scripts/activate.bat"))) = true
      rw [hact]
      rfl
    unfold launch_app
    rw [if_pos hvm]
  · intro hs
    unfold launch_app
    by_cases hvm : venvMissing lw venv = true
    · rw [if_pos hvm]
    · rw [if_neg hvm, hs]

theorem launch_app_failure_modes_witness :
    launch_app { fileExists := fun _ => false, spawn := some 7 } "app.py" ""
        (some "/venv") [] none = { success := false, spawned := false } ∧
      (launch_app { fileExists := fun _ => true, spawn := none } "app.py" ""
        none [] none).success = false :=
  ⟨(launch_app_failure_modes { fileExists := fun _ => false, spawn := some 7 }
      "app.py" "" (some "/venv") [] none).1 "/venv" rfl rfl,
    (launch_app_failure_modes { fileExists := fun _ => true, spawn := none }
      "app.py" "" none [] none).2 rfl⟩

end PythonLauncher
